import Mathlib

/-!
Verification development for the Reddit stock-sentiment ETL pipeline.

The repository's orchestration layer (the Google Cloud Workflows definition,
`workflow.yaml`) is embedded directly: its raw-message deduplication SQL, its
subreddit sentiment-aggregation SQL, and its step/error semantics. The core
incremental aggregation engine (Signal Extractor, Mention Deduplicator,
Incremental Aggregator, State Tracker) lives in `stock_main.py` /
`simple_run.py`, which are not part of the shared sources; those components
are modelled from the specification, as marked on each definition.
-/

namespace RedditEtl

/-! ## Data model -/

/-- A raw scraped message.  Fields follow the `raw_messages` BigQuery schema
described in the README and spec §3: `content` is nullable (may also be empty
or a deletion sentinel), `ingestion_timestamp` orders duplicate ingestions of
the same `message_id`. -/
structure RawMessage where
  message_id : String
  content : Option String
  author : String
  created_at : Nat
  subreddit : String
  score : Int
  ingestion_timestamp : Nat
  deriving DecidableEq, Repr

/-- Modelled from the spec: one (message, ticker) pair produced by the Signal
Extractor (spec §3 StockMention), carrying sentiment and confidence.  The
extractor implementation is not among the shared sources. -/
structure StockMention where
  message_id : String
  ticker : String
  sentiment : ℚ
  confidence : ℚ
  created_at : Nat
  subreddit : String
  deriving DecidableEq, Repr

/-- Modelled from the spec: a time-bucketed per-ticker summary row (spec §3
SummaryRow), keyed externally by (ticker, bucket_start).  `total_confidence`
is the internal accumulator spec §4.3 requires alongside `avg_confidence`. -/
structure SummaryRow where
  mention_count : Nat
  avg_sentiment : ℚ
  weighted_sentiment : ℚ
  total_confidence : ℚ
  avg_confidence : ℚ
  deriving DecidableEq, Repr

/-- The zero-initialized summary row used when no row exists yet (spec §4.3
step 2). -/
def zeroRow : SummaryRow :=
  { mention_count := 0, avg_sentiment := 0, weighted_sentiment := 0
    total_confidence := 0, avg_confidence := 0 }

/-! ## Incremental Aggregator (spec §4.3) -/

/-- Modelled from the spec: fold a batch of newly-deduplicated mentions into
an existing summary row using the count-weighted incremental formulas of spec
§4.3 step 3, with the empty-batch edge case of §4.3 ("empty new-mention batch
for a bucket → no-op, row untouched").  The aggregator implementation is not
among the shared sources. -/
def mergeBatch (old : SummaryRow) (batch : List StockMention) : SummaryRow :=
  if batch.isEmpty then old
  else
    let n : Nat := batch.length
    let newCount : Nat := old.mention_count + n
    let sumSent : ℚ := (batch.map (fun m => m.sentiment)).sum
    let sumConf : ℚ := (batch.map (fun m => m.confidence)).sum
    let sumWeighted : ℚ := (batch.map (fun m => m.sentiment * m.confidence)).sum
    let newTotalConf : ℚ := old.total_confidence + sumConf
    { mention_count := newCount
      avg_sentiment :=
        (old.avg_sentiment * (old.mention_count : ℚ) + sumSent) / (newCount : ℚ)
      weighted_sentiment :=
        (old.weighted_sentiment * old.total_confidence + sumWeighted) / newTotalConf
      total_confidence := newTotalConf
      avg_confidence := newTotalConf / (newCount : ℚ) }

/-! ## Mention Deduplicator (spec §4.2) -/

/-- The dedup key of a mention: the exact (message_id, ticker) pair. -/
def mentionKey (m : StockMention) : String × String :=
  (m.message_id, m.ticker)

/-- Modelled from the spec: the Mention Deduplicator (spec §4.2) — keep only
candidates whose exact (message_id, ticker) key is not already persisted.
The deduplicator implementation is not among the shared sources. -/
def dedupMentions (persisted : List (String × String))
    (batch : List StockMention) : List StockMention :=
  batch.filter (fun m => decide (mentionKey m ∉ persisted))

/-- State threaded through aggregation runs: the set of already-persisted
dedup keys and the summary row for the bucket under consideration. -/
structure PipeState where
  persisted : List (String × String)
  row : SummaryRow
  deriving DecidableEq, Repr

/-- The fresh state: nothing persisted, zero-initialized row. -/
def freshState : PipeState :=
  { persisted := [], row := zeroRow }

/-- Modelled from the spec: one aggregation pass (spec §2 data flow) — dedup
the candidate batch against persisted state, persist the survivors' keys, and
merge the survivors into the summary row. -/
def runAggregation (st : PipeState) (batch : List StockMention) : PipeState :=
  let fresh := dedupMentions st.persisted batch
  { persisted := st.persisted ++ fresh.map mentionKey
    row := mergeBatch st.row fresh }

/-! ## Helper lemmas about merge and dedup -/

theorem mergeBatch_nil (r : SummaryRow) : mergeBatch r [] = r := rfl

theorem dedupMentions_nil (batch : List StockMention) :
    dedupMentions [] batch = batch := by
  simp [dedupMentions]

theorem dedupMentions_covered (persisted : List (String × String))
    (batch : List StockMention)
    (h : ∀ m ∈ batch, mentionKey m ∈ persisted) :
    dedupMentions persisted batch = [] := by
  simp only [dedupMentions, List.filter_eq_nil_iff]
  intro m hm
  simpa using h m hm

theorem runAggregation_stable (st : PipeState) (batch : List StockMention)
    (h : ∀ m ∈ batch, mentionKey m ∈ st.persisted) :
    runAggregation st batch = st := by
  unfold runAggregation
  rw [dedupMentions_covered st.persisted batch h]
  simp [mergeBatch_nil]

/-! ## Substring matching (embeds SQL `LOWER(content) LIKE '%kw%'`) -/

/-- Character-list prefix test, used to embed SQL `LIKE` matching. -/
def startsWith : List Char → List Char → Bool
  | [], _ => true
  | _ :: _, [] => false
  | a :: as, b :: bs => a == b && startsWith as bs

/-- Character-list containment: `needle` occurs contiguously in `hay`. -/
def hasSub (needle : List Char) : List Char → Bool
  | [] => needle.isEmpty
  | h :: t => startsWith needle (h :: t) || hasSub needle t

/-- Lower-case a string to a character list, embedding SQL `LOWER(content)`. -/
def lowerChars (s : String) : List Char :=
  s.data.map Char.toLower

/-- `content` contains keyword `kw` case-insensitively: embeds the SQL
predicate `LOWER(content) LIKE '%kw%'` (keywords are lower-case literals). -/
def containsKw (content : String) (kw : String) : Bool :=
  hasSub kw.data (lowerChars content)

/-! ## Subreddit sentiment transformation (workflow.yaml, step
`run_bigquery_transformations`) -/

/-- The bullish keywords of the `CASE` expression in the
`run_bigquery_transformations` SQL: `'%bullish%' OR '%buy%' OR '%up%'`. -/
def bullishKeywords : List String := ["bullish", "buy", "up"]

/-- The bearish keywords of the same `CASE` expression:
`'%bearish%' OR '%sell%' OR '%down%'`. -/
def bearishKeywords : List String := ["bearish", "sell", "down"]

/-- Embeds the sentiment `CASE` expression of `run_bigquery_transformations`:
bullish branch first (`THEN 1`), then bearish (`THEN -1`), `ELSE 0`. -/
def sentiment_score (content : String) : Int :=
  if bullishKeywords.any (fun kw => containsKw content kw) then 1
  else if bearishKeywords.any (fun kw => containsKw content kw) then -1
  else 0

/-- Embeds the `WHERE` filter of the `sentiment_data` CTE in
`run_bigquery_transformations`: `content IS NOT NULL AND LENGTH(content) > 0
AND content != '[deleted]'`. -/
def sentimentFilter (content : Option String) : Bool :=
  match content with
  | none => false
  | some c => decide (0 < c.length) && c != "[deleted]"

/-! ## Signal Extractor (spec §4.1) -/

/-- The deletion sentinels of spec §4.1 input constraints. -/
def deletionSentinels : List String := ["[deleted]", "[removed]"]

/-- Modelled from the spec: the Signal Extractor contract of spec §4.1 —
`extract(message, ticker_universe) -> sequence<StockMention>`.  Empty or
sentinel content yields the empty sequence; otherwise one mention per
detected ticker (case-insensitive scan of the content against the universe),
sentiment from the scoring collaborator `score`, confidence from `conf`.
The extractor implementation (`stock_main.py`) is not among the shared
sources. -/
def extract (score : String → ℚ) (conf : String → Int → ℚ)
    (msg : RawMessage) (tickerUniverse : List String) : List StockMention :=
  match msg.content with
  | none => []
  | some c =>
    if c.length = 0 ∨ c ∈ deletionSentinels then []
    else
      ((tickerUniverse.filter (fun t => hasSub (lowerChars t) (lowerChars c))).dedup).map
        (fun t =>
          { message_id := msg.message_id
            ticker := t
            sentiment := score c
            confidence := conf c msg.score
            created_at := msg.created_at
            subreddit := msg.subreddit })

/-! ## Raw-message deduplication (workflow.yaml, step `run_deduplication`) -/

/-- The comparison underlying `ORDER BY ingestion_timestamp DESC`: of two
rows with the same `message_id`, keep the one with the later
`ingestion_timestamp` (on a tie the first-seen row is kept — the SQL
`ROW_NUMBER` tie-break is unspecified, so one concrete choice is fixed
here). -/
def laterRow (a b : RawMessage) : RawMessage :=
  if a.ingestion_timestamp < b.ingestion_timestamp then b else a

/-- The row ranked `row_num = 1` by `ROW_NUMBER() OVER (PARTITION BY
message_id ORDER BY ingestion_timestamp DESC)` among a nonempty partition. -/
def latestOf : List RawMessage → Option RawMessage
  | [] => none
  | h :: t => some (t.foldl laterRow h)

/-- Embeds the `run_deduplication` SQL of workflow.yaml: partition
`raw_messages` by `message_id`, keep only the row ranked first by descending
`ingestion_timestamp`, and replace the table with the result. -/
def run_deduplication (rows : List RawMessage) : List RawMessage :=
  ((rows.map (fun r => r.message_id)).dedup).filterMap
    (fun mid => latestOf (rows.filter (fun r => r.message_id == mid)))

/-! ## Workflow step semantics (workflow.yaml, `main`) -/

/-- The five effectful steps of the workflow's `main`, in source order:
the scraper Cloud Function, raw-message deduplication, the BigQuery
sentiment transformation, the stock ETL job (extraction + aggregation), and
the sentiment ETL job. -/
inductive WfStep
  | scraper
  | dedup
  | bqTransform
  | stockEtl
  | sentimentEtl
  deriving DecidableEq, Repr, Fintype

/-- The workflow's step order, as written in `main`. -/
def wfOrder : List WfStep :=
  [WfStep.scraper, WfStep.dedup, WfStep.bqTransform, WfStep.stockEtl,
   WfStep.sentimentEtl]

/-- Position of a step in the workflow source. -/
def stepIndex : WfStep → Nat
  | WfStep.scraper => 0
  | WfStep.dedup => 1
  | WfStep.bqTransform => 2
  | WfStep.stockEtl => 3
  | WfStep.sentimentEtl => 4

/-- Embeds the `try`/`except`/`return_error` chain of `main`: steps run in
order; a failing step's `except` block returns an error, terminating the
workflow.  Returns the executed steps and whether the workflow reached its
final `return_result` (success). -/
def runSteps (fails : WfStep → Bool) : List WfStep → List WfStep × Bool
  | [] => ([], true)
  | s :: rest =>
    if fails s then ([s], false)
    else
      let p := runSteps fails rest
      (s :: p.1, p.2)

/-- One workflow execution over the source step order. -/
def runWorkflow (fails : WfStep → Bool) : List WfStep × Bool :=
  runSteps fails wfOrder

/-! ## State Tracker and watermark (spec §4.4, §4.5) -/

/-- Modelled from the spec: RunState (spec §3) — the watermark document the
State Tracker keeps per pipeline identity.  The tracker implementation
(Firestore `etl_state`) is not among the shared sources. -/
structure RunState where
  last_run_timestamp : Option Nat
  deriving DecidableEq, Repr

/-- Modelled from the spec: the five sequential phases of one ETL run whose
full success gates the watermark write (spec §4.4: "extraction, dedup,
persistence, aggregation, aggregation-persistence"). -/
inductive EtlStep
  | extraction
  | dedupStep
  | persistMentions
  | aggregation
  | persistSummaries
  deriving DecidableEq, Repr, Fintype

/-- The run's phase order per spec §4.5 write ordering (mentions first,
summaries second, watermark last). -/
def etlOrder : List EtlStep :=
  [EtlStep.extraction, EtlStep.dedupStep, EtlStep.persistMentions,
   EtlStep.aggregation, EtlStep.persistSummaries]

/-- Modelled from the spec: sequential execution of the run's phases, each
aborting the run on failure (spec §7: collaborator failures abort the current
run). -/
def etlPhases (ok : EtlStep → Bool) : List EtlStep → Bool
  | [] => true
  | s :: rest => ok s && etlPhases ok rest

/-- Modelled from the spec: one ETL run against the State Tracker — the
watermark `last_run_timestamp` is set to `now` only when every phase
completes, otherwise the prior RunState is kept (spec §4.4: "partial runs
must not advance the watermark").  The run driver (`simple_run.py`) is not
among the shared sources. -/
def runEtl (st : RunState) (ok : EtlStep → Bool) (now : Nat) : RunState :=
  if etlPhases ok etlOrder then { last_run_timestamp := some now } else st

/-- Modelled from the spec: the processing window computed at run start
(spec §3 RunState: `[last_run_timestamp, now)`), falling back to a lookback
window when no prior state exists (spec §4.4). -/
def processingWindow (st : RunState) (lookback now : Nat) : Nat × Nat :=
  match st.last_run_timestamp with
  | some t => (t, now)
  | none => (now - lookback, now)

/-! ## Time bucketing (spec §4.3 step 1 and edge cases) -/

/-- Modelled from the spec: `bucket_start = floor(mention.created_at,
granularity)` (spec §4.3 step 1), over epoch-second timestamps.  The
aggregation job's bucketing code is not among the shared sources. -/
def bucketStart (granularity t : Nat) : Nat :=
  t / granularity * granularity

/-- Membership of a timestamp in the closed-open bucket `[start, start +
granularity)` (spec §4.3 edge cases). -/
def inBucket (granularity start t : Nat) : Prop :=
  start ≤ t ∧ t < start + granularity

/-- Seconds per hourly bucket. -/
def hourSeconds : Nat := 3600

/-! ## Confidence score (spec §4.1) -/

/-- Clamp a rational into [0,1]. -/
def clamp01 (x : ℚ) : ℚ := min 1 (max 0 x)

/-- Modelled from the spec: normalization of the upvote-like message score
into [0,1] (spec §4.1: "normalized message score"); the exact constant is a
design choice the spec leaves open (§9). -/
def normScore (score : Int) : ℚ := clamp01 ((score : ℚ) / 100)

/-- Modelled from the spec: the confidence score — a deterministic function
of `(|sentiment_compound|, normalized message score)` with value in [0,1],
monotone in both inputs (spec §4.1); the exact coefficients are a design
choice the spec leaves open (§9). -/
def confidenceScore (compound : ℚ) (score : Int) : ℚ :=
  min 1 ((|compound| + normScore score) / 2)

/-! ## Claim C1: merge correctness -/

/-- C1: merging a nonempty batch of n new mentions into an existing summary
row with mention_count m and avg_sentiment a yields mention_count m + n and
avg_sentiment (a * m + Σ new sentiments) / (m + n). -/
theorem merge_correct (old : SummaryRow) (batch : List StockMention)
    (h : batch ≠ []) :
    (mergeBatch old batch).mention_count = old.mention_count + batch.length ∧
    (mergeBatch old batch).avg_sentiment =
      (old.avg_sentiment * (old.mention_count : ℚ) +
          (batch.map (fun m => m.sentiment)).sum) /
        ((old.mention_count : ℚ) + (batch.length : ℚ)) := by
  unfold mergeBatch
  rw [if_neg (by simpa [List.isEmpty_iff] using h)]
  refine ⟨rfl, ?_⟩
  push_cast
  rfl

/-- A mention with sentiment 1 (used for the concrete merge instance). -/
def c1Mention : StockMention :=
  { message_id := "m1", ticker := "AAPL", sentiment := 1, confidence := 1/2
    created_at := 0, subreddit := "wallstreetbets" }

/-- Five new mentions, each with sentiment 1. -/
def c1Batch : List StockMention := List.replicate 5 c1Mention

/-- An existing row with mention_count 10 and avg_sentiment 0.2. -/
def c1OldRow : SummaryRow :=
  { mention_count := 10, avg_sentiment := 1/5, weighted_sentiment := 0
    total_confidence := 0, avg_confidence := 0 }

/-- C1 witness: the existing row (mention_count = 10, avg_sentiment = 0.2)
receiving 5 mentions with sentiments [1,1,1,1,1] yields mention_count 15 and
avg_sentiment 7/15. -/
theorem merge_correct_witness :
    c1Batch ≠ [] ∧
    (mergeBatch c1OldRow c1Batch).mention_count = 15 ∧
    (mergeBatch c1OldRow c1Batch).avg_sentiment = 7 / 15 := by
  have h := merge_correct c1OldRow c1Batch (by simp [c1Batch])
  refine ⟨by simp [c1Batch], ?_, ?_⟩
  · rw [h.1]; rfl
  · rw [h.2]
    norm_num [c1Batch, c1Mention, c1OldRow, List.replicate]

/-! ## Claim C2: dedup + aggregate is idempotent end-to-end -/

/-- C2: for every mention batch, running dedup followed by the aggregator
against a fresh zero-state row and then running the same pipeline on the
batch a second time yields the same state — in particular the same
SummaryRow — as running it once: the second run's input is empty after
dedup. -/
theorem dedup_aggregate_idempotent (batch : List StockMention) :
    runAggregation (runAggregation freshState batch) batch =
      runAggregation freshState batch := by
  apply runAggregation_stable
  intro m hm
  show mentionKey m ∈ (runAggregation freshState batch).persisted
  simp only [runAggregation, freshState, dedupMentions_nil, List.nil_append]
  exact List.mem_map_of_mem mentionKey hm

/-! ## Claim C3: at most one persisted mention per (message_id, ticker) -/

theorem count_le_one_of_nodup {α : Type} [BEq α] [LawfulBEq α] (k : α) :
    ∀ l : List α, l.Nodup → l.count k ≤ 1 := by
  intro l
  induction l with
  | nil => intro _; simp
  | cons a t ih =>
    intro h
    rcases List.nodup_cons.mp h with ⟨ha, ht⟩
    rw [List.count_cons]
    by_cases hk : k = a
    · subst hk
      have : t.count k = 0 := List.count_eq_zero_of_not_mem ha
      simp [this]
    · have hba : (a == k) = false := beq_false_of_ne (Ne.symm hk)
      simp [hba]
      exact ih ht

theorem extract_keys_nodup (score : String → ℚ) (conf : String → Int → ℚ)
    (msg : RawMessage) (tickerUniverse : List String) :
    ((extract score conf msg tickerUniverse).map mentionKey).Nodup := by
  rcases hmc : msg.content with _ | c
  · simp [extract, hmc]
  · by_cases hs : c.length = 0 ∨ c ∈ deletionSentinels
    · simp [extract, hmc, hs]
    · simp only [extract, hmc]
      rw [if_neg hs, List.map_map]
      apply List.Nodup.map
      · intro a b hab
        simpa [mentionKey] using hab
      · exact List.nodup_dedup _

/-- C3: processing the same RawMessage through extraction in two separate
runs persists at most one StockMention per (message_id, ticker) pair; the
deduplicator filters by exact equality of the (message_id, ticker) key
against the already-persisted state. -/
theorem mention_dedup_exactly_once (score : String → ℚ)
    (conf : String → Int → ℚ) (msg : RawMessage)
    (tickerUniverse : List String) (k : String × String) :
    List.count k
      (runAggregation
        (runAggregation freshState (extract score conf msg tickerUniverse))
        (extract score conf msg tickerUniverse)).persisted ≤ 1 := by
  set batch := extract score conf msg tickerUniverse with hb
  have hpers : (runAggregation freshState batch).persisted =
      batch.map mentionKey := by
    simp only [runAggregation, freshState, dedupMentions_nil, List.nil_append]
  have hstable : runAggregation (runAggregation freshState batch) batch =
      runAggregation freshState batch := by
    apply runAggregation_stable
    intro m hm
    rw [hpers]
    exact List.mem_map_of_mem mentionKey hm
  rw [hstable, hpers]
  have hnodup : (batch.map mentionKey).Nodup :=
    extract_keys_nodup score conf msg tickerUniverse
  exact count_le_one_of_nodup k _ hnodup

/-! ## Claim C4: watermark safety -/

theorem etlPhases_false_of_mem (ok : EtlStep → Bool) (s : EtlStep)
    (hok : ok s = false) :
    ∀ l : List EtlStep, s ∈ l → etlPhases ok l = false := by
  intro l
  induction l with
  | nil => intro h; cases h
  | cons a t ih =>
    intro hs
    rcases List.mem_cons.mp hs with h | h
    · subst h; simp [etlPhases, hok]
    · simp [etlPhases, ih h]

theorem etlPhases_all_true (ok : EtlStep → Bool) :
    ∀ l : List EtlStep, etlPhases ok l = true → ∀ s ∈ l, ok s = true := by
  intro l
  induction l with
  | nil => intro _ s hs; cases hs
  | cons a t ih =>
    intro h s hs
    rw [etlPhases, Bool.and_eq_true] at h
    rcases List.mem_cons.mp hs with rfl | hmem
    · exact h.1
    · exact ih h.2 s hmem

/-- C4: the watermark is written only after every phase of the run completes
without fatal error, and in every run where persistence of summaries fails
the watermark is not advanced, so the next run computes the same processing
window. -/
theorem watermark_safety (st : RunState) (ok : EtlStep → Bool) (now : Nat) :
    (runEtl st ok now ≠ st → ∀ s ∈ etlOrder, ok s = true) ∧
    (ok EtlStep.persistSummaries = false →
      runEtl st ok now = st ∧
      ∀ lookback n, processingWindow (runEtl st ok now) lookback n =
        processingWindow st lookback n) := by
  constructor
  · intro hne
    by_cases hph : etlPhases ok etlOrder = true
    · exact etlPhases_all_true ok etlOrder hph
    · exact absurd (by unfold runEtl; rw [if_neg hph]) hne
  · intro hfail
    have hmem : EtlStep.persistSummaries ∈ etlOrder := by decide
    have hph : etlPhases ok etlOrder = false :=
      etlPhases_false_of_mem ok EtlStep.persistSummaries hfail etlOrder hmem
    have heq : runEtl st ok now = st := by
      unfold runEtl; rw [hph]; simp
    exact ⟨heq, fun lookback n => by rw [heq]⟩

/-- A run in which only the summary-persistence phase fails. -/
def c4Ok : EtlStep → Bool := fun s => s != EtlStep.persistSummaries

/-- A prior RunState with an existing watermark. -/
def c4State : RunState := { last_run_timestamp := some 100 }

/-- C4 witness: with the summary-persistence phase failing, a run at time 200
leaves the watermark at 100. -/
theorem watermark_safety_witness :
    c4Ok EtlStep.persistSummaries = false ∧
    runEtl c4State c4Ok 200 = c4State :=
  ⟨by decide, ((watermark_safety c4State c4Ok 200).2 (by decide)).1⟩

/-! ## Claim C5: deleted-content handling -/

/-- A message whose content is the `"[removed]"` deletion sentinel. -/
def c5RemovedMsg : RawMessage :=
  { message_id := "m-removed", content := some "[removed]", author := "a"
    created_at := 0, subreddit := "s", score := 0, ingestion_timestamp := 0 }

/-- C5 counterexample: it is not the case that every message whose content is
empty or a deletion sentinel both yields no mentions and is excluded from the
subreddit sentiment aggregation — the `"[removed]"` sentinel passes the
aggregation's `WHERE` filter (`content IS NOT NULL AND LENGTH(content) > 0
AND content != '[deleted]'` keeps it). -/
theorem deleted_handling_counterexample :
    ¬ (∀ msg : RawMessage,
        (msg.content = some "" ∨ msg.content = some "[deleted]" ∨
            msg.content = some "[removed]") →
        (∀ (score : String → ℚ) (conf : String → Int → ℚ)
            (u : List String), extract score conf msg u = []) ∧
        sentimentFilter msg.content = false) := by
  intro h
  have h2 : sentimentFilter (some "[removed]") = false :=
    (h c5RemovedMsg (Or.inr (Or.inr rfl))).2
  have h3 : sentimentFilter (some "[removed]") = true := by decide
  rw [h3] at h2
  exact absurd h2 (by decide)

/-- C5 amended: a message whose content is empty or a deletion sentinel
yields an empty sequence of StockMentions, and messages whose content is
null, empty or `"[deleted]"` are excluded from the subreddit sentiment
aggregation; `"[removed]"` messages are not excluded from that
aggregation. -/
theorem deleted_handling_amended (msg : RawMessage) (score : String → ℚ)
    (conf : String → Int → ℚ) (u : List String) :
    ((msg.content = some "" ∨ msg.content = some "[deleted]" ∨
        msg.content = some "[removed]") →
      extract score conf msg u = []) ∧
    ((msg.content = none ∨ msg.content = some "" ∨
        msg.content = some "[deleted]") →
      sentimentFilter msg.content = false) ∧
    sentimentFilter (some "[removed]") = true := by
  refine ⟨?_, ?_, by decide⟩
  · intro hc
    rcases hc with hc | hc | hc <;>
      simp [extract, hc, deletionSentinels]
  · intro hc
    rcases hc with hc | hc | hc <;> rw [hc] <;> decide

/-- A message whose content is the `"[deleted]"` deletion sentinel. -/
def c5DeletedMsg : RawMessage :=
  { message_id := "m-deleted", content := some "[deleted]", author := "a"
    created_at := 0, subreddit := "s", score := 0, ingestion_timestamp := 0 }

/-- C5 witness: a `"[deleted]"` message yields no mentions and is excluded
from the subreddit sentiment aggregation. -/
theorem deleted_handling_amended_witness :
    extract (fun _ => 0) (fun _ _ => 0) c5DeletedMsg ["GME"] = [] ∧
    sentimentFilter c5DeletedMsg.content = false := by
  have h := deleted_handling_amended c5DeletedMsg (fun _ => 0) (fun _ _ => 0)
    ["GME"]
  exact ⟨h.1 (Or.inr (Or.inl rfl)), h.2.1 (Or.inr (Or.inr rfl))⟩

/-! ## Claim C6: step ordering and all-or-nothing runs -/

/-- C6: in every workflow execution, (i) the workflow returns success only
when every step executed and none failed; (ii) when the stock ETL step (which
performs extraction and aggregation) executes, the scraper, deduplication,
and transformation steps before it have all completed successfully; (iii) a
failing step terminates the run, so no step after a failing step executes. -/
theorem workflow_run_atomic :
    ∀ fails : WfStep → Bool,
      ((runWorkflow fails).2 = true →
        (runWorkflow fails).1 = wfOrder ∧ ∀ s ∈ wfOrder, fails s = false) ∧
      (WfStep.stockEtl ∈ (runWorkflow fails).1 →
        fails WfStep.scraper = false ∧ fails WfStep.dedup = false ∧
        fails WfStep.bqTransform = false ∧
        WfStep.dedup ∈ (runWorkflow fails).1) ∧
      (∀ s s' : WfStep, fails s = true → stepIndex s < stepIndex s' →
        s' ∉ (runWorkflow fails).1) := by
  decide

/-- A workflow execution in which the BigQuery transformation step fails. -/
def c6Fails : WfStep → Bool := fun s => s == WfStep.bqTransform

/-- C6 witness: when the transformation step fails, the stock ETL step never
executes. -/
theorem workflow_run_atomic_witness :
    c6Fails WfStep.bqTransform = true ∧
    stepIndex WfStep.bqTransform < stepIndex WfStep.stockEtl ∧
    WfStep.stockEtl ∉ (runWorkflow c6Fails).1 :=
  ⟨by decide, by decide,
    (workflow_run_atomic c6Fails).2.2 WfStep.bqTransform WfStep.stockEtl
      (by decide) (by decide)⟩

/-! ## Claim C7: closed-open bucket assignment -/

/-- C7: every mention timestamp lies in the closed-open interval
[bucket_start, bucket_start + granularity) of its assigned bucket, and a
timestamp exactly on a boundary is assigned the bucket starting at that
boundary. -/
theorem bucket_assignment (g t : Nat) (hg : 0 < g) :
    inBucket g (bucketStart g t) t ∧ (g ∣ t → bucketStart g t = t) := by
  refine ⟨⟨Nat.div_mul_le_self t g, ?_⟩, fun hdvd => Nat.div_mul_cancel hdvd⟩
  have h1 : t % g < g := Nat.mod_lt t hg
  have h2 : g * (t / g) + t % g = t := Nat.div_add_mod t g
  calc t = g * (t / g) + t % g := h2.symm
    _ < g * (t / g) + g := Nat.add_lt_add_left h1 _
    _ = t / g * g + g := by rw [Nat.mul_comm]

/-- C7 witness: the timestamp 7200 sits exactly on an hourly boundary and is
assigned the bucket starting at 7200 itself, in which it lies. -/
theorem bucket_assignment_witness :
    (0 : Nat) < hourSeconds ∧ bucketStart hourSeconds 7200 = 7200 ∧
    inBucket hourSeconds (bucketStart hourSeconds 7200) 7200 :=
  ⟨by decide, (bucket_assignment hourSeconds 7200 (by decide)).2 ⟨2, rfl⟩,
    (bucket_assignment hourSeconds 7200 (by decide)).1⟩

/-! ## Claim C8: confidence score properties -/

theorem clamp01_nonneg (x : ℚ) : 0 ≤ clamp01 x :=
  le_min (by norm_num) (le_max_left 0 x)

/-- C8: the confidence score is a deterministic function of
(|sentiment_compound|, normalized message score) with value in [0,1], and for
a fixed message score it is monotone in |sentiment_compound|. -/
theorem confidence_properties (c₁ c₂ : ℚ) (s : Int) :
    (0 ≤ confidenceScore c₁ s ∧ confidenceScore c₁ s ≤ 1) ∧
    (|c₁| ≤ |c₂| → confidenceScore c₁ s ≤ confidenceScore c₂ s) ∧
    (∀ c' s', c₁ = c' → s = s' → confidenceScore c₁ s = confidenceScore c' s') := by
  refine ⟨⟨?_, min_le_left _ _⟩, ?_, ?_⟩
  · apply le_min
    · norm_num
    · apply div_nonneg _ (by norm_num)
      exact add_nonneg (abs_nonneg _) (clamp01_nonneg _)
  · intro hle
    apply min_le_min le_rfl
    apply (div_le_div_iff_of_pos_right (by norm_num : (0:ℚ) < 2)).mpr
    exact add_le_add_right hle _
  · intro c' s' hc hs
    rw [hc, hs]

/-- C8 witness: at message score 50, raising |sentiment_compound| from 1/2 to
1 does not decrease the confidence. -/
theorem confidence_properties_witness :
    |(1 : ℚ)/2| ≤ |(1 : ℚ)| ∧
    confidenceScore (1/2) 50 ≤ confidenceScore 1 50 := by
  have habs : |(1 : ℚ)/2| ≤ |(1 : ℚ)| := by
    rw [abs_of_nonneg (by norm_num : (0:ℚ) ≤ 1/2),
      abs_of_nonneg (by norm_num : (0:ℚ) ≤ 1)]
    norm_num
  exact ⟨habs, (confidence_properties (1/2) 1 50).2.1 habs⟩

/-! ## Claim C9: raw-message dedup keeps the latest ingestion per id -/

theorem laterRow_or (a b : RawMessage) : laterRow a b = a ∨ laterRow a b = b := by
  unfold laterRow
  split
  · exact Or.inr rfl
  · exact Or.inl rfl

theorem laterRow_ts_left (a b : RawMessage) :
    a.ingestion_timestamp ≤ (laterRow a b).ingestion_timestamp := by
  unfold laterRow
  split <;> omega

theorem laterRow_ts_right (a b : RawMessage) :
    b.ingestion_timestamp ≤ (laterRow a b).ingestion_timestamp := by
  unfold laterRow
  split <;> omega

theorem foldl_laterRow_mem :
    ∀ (t : List RawMessage) (h : RawMessage), t.foldl laterRow h ∈ h :: t := by
  intro t
  induction t with
  | nil => intro h; simp
  | cons x xs ih =>
    intro h
    rw [List.foldl_cons]
    rcases List.mem_cons.mp (ih (laterRow h x)) with he | hm
    · rcases laterRow_or h x with h1 | h1 <;> rw [he, h1] <;> simp
    · exact List.mem_cons_of_mem _ (List.mem_cons_of_mem _ hm)

theorem foldl_laterRow_ts :
    ∀ (t : List RawMessage) (h x : RawMessage), x ∈ h :: t →
      x.ingestion_timestamp ≤ (t.foldl laterRow h).ingestion_timestamp := by
  intro t
  induction t with
  | nil =>
    intro h x hx
    rw [List.mem_singleton] at hx
    subst hx
    exact le_refl _
  | cons y ys ih =>
    intro h x hx
    rw [List.foldl_cons]
    rcases List.mem_cons.mp hx with rfl | hx'
    · exact le_trans (laterRow_ts_left x y)
        (ih (laterRow x y) (laterRow x y) (List.mem_cons_self _ _))
    · rcases List.mem_cons.mp hx' with rfl | hx''
      · exact le_trans (laterRow_ts_right h x)
          (ih (laterRow h x) (laterRow h x) (List.mem_cons_self _ _))
      · exact ih (laterRow h y) x (List.mem_cons_of_mem _ hx'')

theorem latestOf_spec (l : List RawMessage) (hl : l ≠ []) :
    ∃ r, latestOf l = some r ∧ r ∈ l ∧
      ∀ x ∈ l, x.ingestion_timestamp ≤ r.ingestion_timestamp := by
  match l with
  | [] => exact absurd rfl hl
  | h :: t =>
    exact ⟨t.foldl laterRow h, rfl, foldl_laterRow_mem t h,
      fun x hx => foldl_laterRow_ts t h x hx⟩

theorem latest_partition (rows : List RawMessage) (mid : String)
    (hmem : mid ∈ rows.map (fun r => r.message_id)) :
    ∃ r, latestOf (rows.filter (fun r => r.message_id == mid)) = some r ∧
      r.message_id = mid ∧ r ∈ rows ∧
      ∀ r' ∈ rows, r'.message_id = mid →
        r'.ingestion_timestamp ≤ r.ingestion_timestamp := by
  obtain ⟨r0, hr0, hid0⟩ := List.mem_map.mp hmem
  have hfilter : r0 ∈ rows.filter (fun r => r.message_id == mid) := by
    rw [List.mem_filter]
    exact ⟨hr0, by simp [hid0]⟩
  obtain ⟨r, hlat, hrmem, hmax⟩ := latestOf_spec _ (List.ne_nil_of_mem hfilter)
  have hrid : r.message_id = mid := by
    simpa using (List.mem_filter.mp hrmem).2
  refine ⟨r, hlat, hrid, (List.mem_filter.mp hrmem).1, ?_⟩
  intro r' hr' hid'
  apply hmax
  rw [List.mem_filter]
  exact ⟨hr', by simp [hid']⟩

theorem countP_filterMap_unique (mid : String) :
    ∀ (l : List String) (f : String → Option RawMessage),
      l.Nodup → (∀ a ∈ l, ∃ r, f a = some r ∧ r.message_id = a) →
      (l.filterMap f).countP (fun r => r.message_id == mid) =
        if mid ∈ l then 1 else 0 := by
  intro l
  induction l with
  | nil => intro f _ _; simp
  | cons a t ih =>
    intro f hnd hf
    obtain ⟨ra, hra, hida⟩ := hf a (List.mem_cons_self a t)
    rcases List.nodup_cons.mp hnd with ⟨hat, hnt⟩
    rw [List.filterMap_cons, hra, List.countP_cons]
    have hrest := ih f hnt (fun b hb => hf b (List.mem_cons_of_mem a hb))
    by_cases hmid : mid = a
    · subst hmid
      rw [hrest, if_neg hat]
      simp [hida]
    · have hpa : (ra.message_id == mid) = false := by
        rw [hida]
        exact beq_false_of_ne (Ne.symm hmid)
      rw [hrest]
      simp [hpa, List.mem_cons, hmid]

/-- C9: after the workflow's raw-message deduplication, every message_id
present in the input appears exactly once in the output; each retained row is
one of the input rows and carries the greatest ingestion_timestamp among the
rows sharing its message_id; and in every workflow execution the dedup step
completes before the downstream stock ETL step reads the table. -/
theorem raw_dedup_invariant (rows : List RawMessage) (mid : String) :
    ((run_deduplication rows).countP (fun r => r.message_id == mid) =
      if mid ∈ rows.map (fun r => r.message_id) then 1 else 0) ∧
    (∀ r ∈ run_deduplication rows, r ∈ rows ∧
      ∀ r' ∈ rows, r'.message_id = r.message_id →
        r'.ingestion_timestamp ≤ r.ingestion_timestamp) ∧
    (∀ fails : WfStep → Bool, WfStep.stockEtl ∈ (runWorkflow fails).1 →
      fails WfStep.dedup = false ∧ WfStep.dedup ∈ (runWorkflow fails).1) := by
  refine ⟨?_, ?_, by decide⟩
  · unfold run_deduplication
    rw [countP_filterMap_unique mid _ _ (List.nodup_dedup _) ?_]
    · by_cases h : mid ∈ rows.map (fun r => r.message_id)
      · rw [if_pos (List.mem_dedup.mpr h), if_pos h]
      · rw [if_neg (fun hc => h (List.mem_dedup.mp hc)), if_neg h]
    · intro a ha
      obtain ⟨r, h1, h2, _, _⟩ := latest_partition rows a (List.mem_dedup.mp ha)
      exact ⟨r, h1, h2⟩
  · intro r hr
    obtain ⟨mid', hmid', hlat⟩ := List.mem_filterMap.mp hr
    obtain ⟨r2, h1, h2, h3, h4⟩ :=
      latest_partition rows mid' (List.mem_dedup.mp hmid')
    rw [hlat] at h1
    injection h1 with h1
    subst h1
    exact ⟨h3, fun r' hr' hid' => h4 r' hr' (hid'.trans h2)⟩

/-- An earlier ingestion of message "a". -/
def c9R1 : RawMessage :=
  { message_id := "a", content := some "hello", author := "u1"
    created_at := 0, subreddit := "s", score := 0, ingestion_timestamp := 1 }

/-- A later ingestion of the same message "a". -/
def c9R2 : RawMessage :=
  { message_id := "a", content := some "hello", author := "u1"
    created_at := 0, subreddit := "s", score := 0, ingestion_timestamp := 5 }

/-- A raw_messages table holding two ingestions of the same message. -/
def c9Rows : List RawMessage := [c9R1, c9R2]

/-- C9 witness: deduplicating the two ingestions of message "a" keeps exactly
one row — the later ingestion — and its timestamp dominates the dropped
one. -/
theorem raw_dedup_invariant_witness :
    ((run_deduplication c9Rows).countP (fun r => r.message_id == "a") = 1) ∧
    c9R2 ∈ run_deduplication c9Rows ∧
    c9R1.ingestion_timestamp ≤ c9R2.ingestion_timestamp := by
  have h := raw_dedup_invariant c9Rows "a"
  exact ⟨h.1.trans (by decide), by decide,
    (h.2.1 c9R2 (by decide)).2 c9R1 (by decide) (by decide)⟩

/-! ## Claim C10: keyword sentiment score -/

/-- C10: the per-message keyword sentiment score is always one of
{-1, 0, 1}, and the bullish branch is evaluated first: content matching both
a bullish and a bearish keyword scores +1. -/
theorem sentiment_score_cases (content : String) :
    (sentiment_score content = 1 ∨ sentiment_score content = 0 ∨
      sentiment_score content = -1) ∧
    (bullishKeywords.any (fun kw => containsKw content kw) = true →
      bearishKeywords.any (fun kw => containsKw content kw) = true →
      sentiment_score content = 1) := by
  constructor
  · unfold sentiment_score
    split
    · exact Or.inl rfl
    · split
      · exact Or.inr (Or.inr rfl)
      · exact Or.inr (Or.inl rfl)
  · intro hb _
    unfold sentiment_score
    rw [if_pos hb]

/-- C10 witness: "buy now or sell later" matches both keyword groups and
scores +1. -/
theorem sentiment_score_cases_witness :
    bullishKeywords.any (fun kw => containsKw "buy now or sell later" kw) = true ∧
    bearishKeywords.any (fun kw => containsKw "buy now or sell later" kw) = true ∧
    sentiment_score "buy now or sell later" = 1 :=
  ⟨by decide, by decide,
    (sentiment_score_cases "buy now or sell later").2 (by decide) (by decide)⟩

end RedditEtl
